import Mathlib

/-!
Verification of the gophercord/snowflake Go package.

Shallow embedding conventions:
* Go byte slices and strings are `List Nat`, each element a byte value below 256.
* `uint64` values are `Nat`, with explicit `% 2 ^ 64` wherever Go arithmetic wraps.
* `int64` values are `Int`, with explicit two's-complement wrapping (`wrap64`).
* Fallible Go functions return `Except` or `Option`.
* The Go standard-library functions the package calls (strconv.ParseUint,
  strconv.FormatUint, strconv.Quote, strconv.Unquote and the unicode/utf8
  helpers Unquote depends on) are modelled here byte-for-byte after their
  Go implementations, since the package behaviour depends on them.
-/

/-! ### Decimal digits: values and predicates -/

/-- Largest value of a Go uint64. -/
def maxUint64 : Nat := 2 ^ 64 - 1

/-- Go strconv.ParseUint cutoff for base 10, bitSize 64: the smallest n with
n * 10 exceeding maxUint64. -/
def cutoff10 : Nat := maxUint64 / 10 + 1

/-- Value denoted by a list of ASCII digit bytes read left to right,
starting from accumulator n. -/
def digitsValFrom (n : Nat) (l : List Nat) : Nat :=
  l.foldl (fun a c => a * 10 + (c - 48)) n

/-- Value denoted by a list of ASCII digit bytes. -/
def digitsVal (l : List Nat) : Nat := digitsValFrom 0 l

/-- Every byte is an ASCII decimal digit (48 to 57). -/
def allDigits (l : List Nat) : Bool :=
  l.all (fun c => decide (48 ≤ c) && decide (c ≤ 57))

/-- The byte list is a nonempty decimal digit string denoting a value that
fits in a Go uint64. -/
def isDigitStringInRange (s : List Nat) : Bool :=
  !s.isEmpty && allDigits s && decide (digitsVal s ≤ maxUint64)

/-! ### Error model (src/errors.go) -/

/-- Kind of a Go strconv.NumError cause: strconv.ErrSyntax or strconv.ErrRange. -/
inductive NumErrKind
  | kindInvalid
  | kindRange
deriving DecidableEq

/-- Models Go strconv.NumError: records the offending input and the cause. -/
structure NumErr where
  num : List Nat
  kind : NumErrKind
deriving DecidableEq

/-- Error taxonomy of the snowflake package (src/errors.go): StringParseError
wraps the underlying strconv.ParseUint failure; UnquotedIntegerError wraps the
strconv.Unquote failure, which is always strconv.ErrSyntax. -/
inductive SnowErr
  | stringParse (cause : NumErr)
  | unquotedInteger
deriving DecidableEq

/-! ### Model of Go strconv.ParseUint(s, 10, 64) -/

/-- Digit-consuming loop of Go strconv.ParseUint with base 10 and bitSize 64.
A byte that is not an ASCII digit is a syntax error (letters reach the
`d >= byte(base)` check, everything else the default branch; both return
strconv.ErrSyntax).  Overflow detection follows the source: `n >= cutoff`
before the multiply, then the wrapped `n1 < n` test, which for base 10 under
the cutoff guard is exactly `n * 10 + d > maxUint64`. -/
def parseUintLoop : List Nat → Nat → Except NumErrKind Nat
  | [], n => Except.ok n
  | c :: cs, n =>
    if 48 ≤ c ∧ c ≤ 57 then
      if cutoff10 ≤ n then Except.error NumErrKind.kindRange
      else
        if maxUint64 < n * 10 + (c - 48) then Except.error NumErrKind.kindRange
        else parseUintLoop cs (n * 10 + (c - 48))
    else Except.error NumErrKind.kindInvalid

/-- Models Go strconv.ParseUint(s, 10, 64): empty input is a syntax error,
otherwise run the digit loop from 0. -/
def parseUint10 (s : List Nat) : Except NumErr Nat :=
  if s = [] then Except.error ⟨s, NumErrKind.kindInvalid⟩
  else
    match parseUintLoop s 0 with
    | Except.error k => Except.error ⟨s, k⟩
    | Except.ok v => Except.ok v

/-! ### Model of Go strconv.FormatUint(v, 10) -/

/-- Division loop of Go strconv.FormatUint for base 10, most significant digit
first.  The fuel argument only bounds the recursion; every call below supplies
fuel greater than v, and each step divides v by 10, so fuel never runs out. -/
def formatLoop : Nat → Nat → List Nat
  | 0, _ => []
  | fuel + 1, v =>
    if v < 10 then [48 + v]
    else formatLoop fuel (v / 10) ++ [48 + v % 10]

/-- Models Go strconv.FormatUint(v, 10): the decimal digit string of v. -/
def FormatUint (v : Nat) : List Nat := formatLoop (v + 1) v

/-! ### Model of Go strconv.Quote -/

/-- Lowercase hexadecimal digit byte for a value below 16. -/
def lowerHex (n : Nat) : Nat := if n < 10 then 48 + n else 87 + n

/-- Models the per-byte escaping of Go strconv.Quote for ASCII bytes: the
quote character 34 and backslash 92 are backslash-escaped, printable ASCII
(32 to 126) is emitted verbatim, the named control escapes follow, and the
remaining control bytes become a hexadecimal escape.  The non-ASCII branch of
strconv.Quote (UTF-8 decoding and unicode.IsPrint) is not modelled: in this
package Quote is only ever applied to the output of FormatUint, which is a
string of ASCII digits, so bytes of 128 and above never occur. -/
def quoteByte (c : Nat) : List Nat :=
  if c = 34 ∨ c = 92 then [92, c]
  else if 32 ≤ c ∧ c ≤ 126 then [c]
  else if c = 7 then [92, 97]
  else if c = 8 then [92, 98]
  else if c = 12 then [92, 102]
  else if c = 10 then [92, 110]
  else if c = 13 then [92, 114]
  else if c = 9 then [92, 116]
  else if c = 11 then [92, 118]
  else [92, 120, lowerHex (c / 16), lowerHex (c % 16)]

/-- Models Go strconv.Quote on ASCII input: wrap in double quotes, escaping
each byte as needed. -/
def quoteGo (s : List Nat) : List Nat :=
  [34] ++ (s.map quoteByte).flatten ++ [34]

/-! ### Model of Go unicode/utf8 (used by strconv.Unquote) -/

/-- Models utf8.DecodeRune: returns the rune value and the number of bytes
consumed.  Empty input yields (RuneError, 0); an invalid or truncated
encoding yields (RuneError, 1).  RuneError is 0xFFFD. -/
def decodeRune : List Nat → Nat × Nat
  | [] => (0xFFFD, 0)
  | b0 :: rest =>
    if b0 < 0x80 then (b0, 1)
    else if 0xC2 ≤ b0 ∧ b0 ≤ 0xDF then
      match rest with
      | b1 :: _ =>
        if 0x80 ≤ b1 ∧ b1 ≤ 0xBF then ((b0 - 0xC0) * 0x40 + (b1 - 0x80), 2)
        else (0xFFFD, 1)
      | _ => (0xFFFD, 1)
    else if 0xE0 ≤ b0 ∧ b0 ≤ 0xEF then
      match rest with
      | b1 :: b2 :: _ =>
        if (if b0 = 0xE0 then 0xA0 else 0x80) ≤ b1 ∧
            b1 ≤ (if b0 = 0xED then 0x9F else 0xBF) ∧
            0x80 ≤ b2 ∧ b2 ≤ 0xBF then
          ((b0 - 0xE0) * 0x1000 + (b1 - 0x80) * 0x40 + (b2 - 0x80), 3)
        else (0xFFFD, 1)
      | _ => (0xFFFD, 1)
    else if 0xF0 ≤ b0 ∧ b0 ≤ 0xF4 then
      match rest with
      | b1 :: b2 :: b3 :: _ =>
        if (if b0 = 0xF0 then 0x90 else 0x80) ≤ b1 ∧
            b1 ≤ (if b0 = 0xF4 then 0x8F else 0xBF) ∧
            0x80 ≤ b2 ∧ b2 ≤ 0xBF ∧ 0x80 ≤ b3 ∧ b3 ≤ 0xBF then
          ((b0 - 0xF0) * 0x40000 + (b1 - 0x80) * 0x1000 +
            (b2 - 0x80) * 0x40 + (b3 - 0x80), 4)
        else (0xFFFD, 1)
      | _ => (0xFFFD, 1)
    else (0xFFFD, 1)

/-- Models utf8.ValidRune: not a surrogate and at most U+10FFFF. -/
def validRune (r : Nat) : Bool :=
  decide (r < 0xD800) || (decide (0xDFFF < r) && decide (r ≤ 0x10FFFF))

/-- Models utf8.AppendRune: UTF-8 encoding of a rune; invalid runes encode as
RuneError (0xFFFD). -/
def encodeRune (r0 : Nat) : List Nat :=
  let r := if validRune r0 then r0 else 0xFFFD
  if r < 0x80 then [r]
  else if r < 0x800 then [0xC0 + r / 0x40, 0x80 + r % 0x40]
  else if r < 0x10000 then
    [0xE0 + r / 0x1000, 0x80 + r / 0x40 % 0x40, 0x80 + r % 0x40]
  else
    [0xF0 + r / 0x40000, 0x80 + r / 0x1000 % 0x40,
      0x80 + r / 0x40 % 0x40, 0x80 + r % 0x40]

/-- Models utf8.ValidString by repeated decoding: a decode that returns
(RuneError, 1) marks an invalid encoding (a genuine encoded U+FFFD decodes
with size 3, and a valid single byte is never RuneError).  The fuel argument
only bounds the recursion; every decode consumes at least one byte, so the
list length used at the call site suffices. -/
def validUtf8Fuel : Nat → List Nat → Bool
  | _, [] => true
  | 0, _ :: _ => false
  | fuel + 1, l =>
    let rn := decodeRune l
    !(decide (rn.1 = 0xFFFD) && decide (rn.2 = 1)) &&
      validUtf8Fuel fuel (l.drop rn.2)

/-- Models utf8.ValidString. -/
def validUtf8 (l : List Nat) : Bool := validUtf8Fuel l.length l

/-! ### Model of Go strconv.Unquote -/

/-- Hexadecimal digit value of a byte, as in Go strconv.unhex. -/
def unhex (c : Nat) : Option Nat :=
  if 48 ≤ c ∧ c ≤ 57 then some (c - 48)
  else if 97 ≤ c ∧ c ≤ 102 then some (c - 87)
  else if 65 ≤ c ∧ c ≤ 70 then some (c - 55)
  else none

/-- Reads count hexadecimal digit bytes, accumulating left to right as in the
`v = v<<4 | x` loop of Go strconv.UnquoteChar. -/
def hexDigits : Nat → Nat → List Nat → Option (Nat × List Nat)
  | 0, acc, s => some (acc, s)
  | _ + 1, _, [] => none
  | count + 1, acc, c :: s =>
    match unhex c with
    | some d => hexDigits count (acc * 16 + d) s
    | none => none

/-- Models Go strconv.UnquoteChar(s, quote): decodes one character or escape
sequence, returning the rune value, the multibyte flag and the remaining
input; none is strconv.ErrSyntax. -/
def unquoteChar (s : List Nat) (q : Nat) : Option (Nat × Bool × List Nat) :=
  match s with
  | [] => none
  | c :: tail =>
    if c = q ∧ (q = 39 ∨ q = 34) then none
    else if 0x80 ≤ c then
      -- byte at or above utf8.RuneSelf: decode one rune from s
      some ((decodeRune s).1, true, s.drop (decodeRune s).2)
    else if c ≠ 92 then some (c, false, tail)
    else
      match tail with
      | [] => none
      | e :: s2 =>
        if e = 97 then some (7, false, s2)
        else if e = 98 then some (8, false, s2)
        else if e = 102 then some (12, false, s2)
        else if e = 110 then some (10, false, s2)
        else if e = 114 then some (13, false, s2)
        else if e = 116 then some (9, false, s2)
        else if e = 118 then some (11, false, s2)
        else if e = 120 then
          -- hexadecimal escape with two digits
          match hexDigits 2 0 s2 with
          | some (v, s3) => some (v, false, s3)
          | none => none
        else if e = 117 then
          -- lowercase unicode escape with four digits
          match hexDigits 4 0 s2 with
          | some (v, s3) => if validRune v then some (v, true, s3) else none
          | none => none
        else if e = 85 then
          -- uppercase unicode escape with eight digits
          match hexDigits 8 0 s2 with
          | some (v, s3) => if validRune v then some (v, true, s3) else none
          | none => none
        else if 48 ≤ e ∧ e ≤ 55 then
          -- octal escape: exactly three octal digits, value at most 255
          match s2 with
          | o1 :: o2 :: s3 =>
            if 48 ≤ o1 ∧ o1 ≤ 55 ∧ 48 ≤ o2 ∧ o2 ≤ 55 then
              if (e - 48) * 64 + (o1 - 48) * 8 + (o2 - 48) ≤ 255 then
                some ((e - 48) * 64 + (o1 - 48) * 8 + (o2 - 48), false, s3)
              else none
            else none
          | _ => none
        else if e = 92 then some (92, false, s2)
        else if e = 39 ∨ e = 34 then
          if e = q then some (e, false, s2) else none
        else none

/-- Bytes appended to the output buffer for one decoded character, as in the
body of the Go strconv.unquote loop: `byte(r)` when the rune is below
utf8.RuneSelf or not multibyte, otherwise its UTF-8 encoding. -/
def appendRuneBytes (r : Nat) (multibyte : Bool) : List Nat :=
  if r < 0x80 ∨ multibyte = false then [r % 256] else encodeRune r

/-- The character loop of Go strconv.unquote: consume characters until the
input is empty or starts with the quote byte; an unescaped newline is a
syntax error; single-quoted literals stop after one character.  The fuel
argument only bounds the recursion; every step consumes at least one byte,
so the list length used at the call site suffices. -/
def unquoteLoop : Nat → Nat → List Nat → List Nat → Option (List Nat × List Nat)
  | _, _, buf, [] => some (buf, [])
  | 0, _, _, _ :: _ => none
  | fuel + 1, q, buf, c :: cs =>
    if c = q then some (buf, c :: cs)
    else if c = 10 then none
    else
      match unquoteChar (c :: cs) q with
      | none => none
      | some (r, mb, rest) =>
        if q = 39 then some (buf ++ appendRuneBytes r mb, rest)
        else unquoteLoop fuel q (buf ++ appendRuneBytes r mb) rest

/-- Escape-processing path of Go strconv.unquote for quote byte q: skip the
opening quote, run the character loop, then require and skip the terminating
quote, returning the decoded bytes and the remaining input. -/
def unquoteSlow (q : Nat) (inp : List Nat) : Option (List Nat × List Nat) :=
  match unquoteLoop (inp.drop 1).length q [] (inp.drop 1) with
  | none => none
  | some (buf, s1) =>
    match s1 with
    | c :: s2 => if c = q then some (buf, s2) else none
    | [] => none

/-- Index of the first occurrence of byte c, as Go index/IndexByte. -/
def indexByte (l : List Nat) (c : Nat) : Option Nat :=
  l.findIdx? (fun b => b == c)

/-- Models the Go strconv.unquote helper with unescape set to true: determine
the quote form from the first byte, optimistically locate the terminating
quote, then handle raw backquoted strings directly, double- and single-quoted
strings through the escape-free fast path or the character loop, and reject
everything else.  Returns the decoded bytes and the remaining input. -/
def unquoteCore (inp : List Nat) : Option (List Nat × List Nat) :=
  if inp.length < 2 then none
  else
    match inp with
    | [] => none
    | q :: rest1 =>
      match indexByte rest1 q with
      | none => none
      | some e0 =>
        -- position just after the optimistic terminating quote
        if q = 96 then
          -- raw string: strip the quotes, discard carriage returns
          some (((inp.take (e0 + 1)).drop 1).filter (fun b => decide (b ≠ 13)),
            inp.drop (e0 + 2))
        else if q = 34 ∨ q = 39 then
          if !(inp.take (e0 + 2)).contains 92 && !(inp.take (e0 + 2)).contains 10 then
            if (if q = 34 then validUtf8 ((inp.take (e0 + 1)).drop 1)
                else
                  decide ((decodeRune ((inp.take (e0 + 1)).drop 1)).2 =
                      ((inp.take (e0 + 1)).drop 1).length) &&
                    !(decide ((decodeRune ((inp.take (e0 + 1)).drop 1)).1 = 0xFFFD) &&
                      decide ((decodeRune ((inp.take (e0 + 1)).drop 1)).2 = 1))) then
              some ((inp.take (e0 + 1)).drop 1, inp.drop (e0 + 2))
            else unquoteSlow q inp
          else unquoteSlow q inp
        else none

/-- Models Go strconv.Unquote: run the core and require that no input
remains.  none is strconv.ErrSyntax. -/
def unquoteGo (inp : List Nat) : Option (List Nat) :=
  match unquoteCore inp with
  | none => none
  | some (out, rem) => if rem = [] then some out else none

/-! ### The snowflake package (src/snowflake.go) -/

/-- The package variable JSON_NULL: the bytes of `null`. -/
def JSON_NULL : List Nat := [110, 117, 108, 108]

/-- The package variable JSON_ZERO: the single byte `0`. -/
def JSON_ZERO : List Nat := [48]

/-- The package variable JSON_ZERO_QUOTED: the bytes of a double-quoted zero. -/
def JSON_ZERO_QUOTED : List Nat := [34, 48, 34]

/-- Models snowflake.ParseString: strconv.ParseUint(s, 10, 64), wrapping any
failure in a StringParseError. -/
def ParseString (s : List Nat) : Except SnowErr Nat :=
  match parseUint10 s with
  | Except.error e => Except.error (SnowErr.stringParse e)
  | Except.ok v => Except.ok v

/-- Models snowflake.ParseJSON.  The global AllowUnquoted flag is passed
explicitly.  The three zero-equivalent literals are checked first; then one
layer of quoting is removed with strconv.Unquote; if unquoting fails and
unquoted integers are not allowed the result is an UnquotedIntegerError,
otherwise the raw bytes are used verbatim; finally the chosen string goes
through ParseString. -/
def ParseJSON (allowUnquoted : Bool) (b : List Nat) : Except SnowErr Nat :=
  if b = JSON_NULL ∨ b = JSON_ZERO ∨ b = JSON_ZERO_QUOTED then Except.ok 0
  else
    match unquoteGo b with
    | none =>
      if !allowUnquoted then Except.error SnowErr.unquotedInteger
      else ParseString b
    | some s => ParseString s

/-- Models the method Snowflake.UnmarshalJSON: parse with ParseJSON; on
success the stored value is replaced, on failure the error is returned and
the stored value s is kept.  The result pairs the new stored value with the
returned error. -/
def Snowflake.UnmarshalJSON (allowUnquoted : Bool) (s : Nat) (b : List Nat) :
    Nat × Option SnowErr :=
  match ParseJSON allowUnquoted b with
  | Except.error e => (s, some e)
  | Except.ok v => (v, none)

/-- Models the method Snowflake.String: strconv.FormatUint(uint64(s), 10). -/
def Snowflake.String (v : Nat) : List Nat := FormatUint v

/-- Models the method Snowflake.MarshalJSON: strconv.Quote of the decimal
string, paired with the always-nil error. -/
def Snowflake.MarshalJSON (v : Nat) : List Nat × Option SnowErr :=
  (quoteGo (FormatUint v), none)

/-- Models the method Snowflake.UnixMilli: uint64(s>>22) + Epoch, with Go
uint64 wrapping addition.  The global Epoch is passed explicitly. -/
def Snowflake.UnixMilli (epoch v : Nat) : Nat := (v >>> 22 + epoch) % 2 ^ 64

/-- Models the method Snowflake.WorkerID: uint8((s & 0x3E0000) >> 17). -/
def Snowflake.WorkerID (v : Nat) : Nat := (v &&& 0x3E0000) >>> 17 % 2 ^ 8

/-- Models the method Snowflake.ProcessID: uint8((s & 0x1F000) >> 12). -/
def Snowflake.ProcessID (v : Nat) : Nat := (v &&& 0x1F000) >>> 12 % 2 ^ 8

/-- Models the method Snowflake.Sequence: uint16(s & 0xFFF). -/
def Snowflake.Sequence (v : Nat) : Nat := (v &&& 0xFFF) % 2 ^ 16

/-- Models the method Snowflake.Bit: `i < 64 && s&(1<<i) != 0`.  The Go shift
`1<<i` is a uint64 shift, hence the explicit wrap (for i of 64 and above the
Go shift produces 0, as does the wrapped power). -/
def Snowflake.Bit (v i : Nat) : Bool :=
  decide (i < 64) && decide (v &&& (1 <<< i) % 2 ^ 64 ≠ 0)

/-- Reinterpretation of a Go uint64 as int64, as in the conversion
int64(Epoch): two's complement. -/
def int64OfUint64 (n : Nat) : Int :=
  if n % 2 ^ 64 < 2 ^ 63 then (n % 2 ^ 64 : Nat) else (n % 2 ^ 64 : Nat) - 2 ^ 64

/-- Two's-complement wrapping of an integer into the int64 range, the effect
of every Go int64 arithmetic operation. -/
def wrap64 (x : Int) : Int := (x + 2 ^ 63) % 2 ^ 64 - 2 ^ 63

/-- Reinterpretation of a Go int64 as uint64, as in the final conversion
Snowflake(...). -/
def uint64OfInt64 (x : Int) : Nat := (x % 2 ^ 64).toNat

/-- Models snowflake.ParseTime: Snowflake((t.UnixMilli() - int64(Epoch)) << 22).
A time value is represented by its Unix millisecond count m, the int64
returned by t.UnixMilli(); the subtraction and the left shift are int64
operations and wrap accordingly. -/
def ParseTime (epoch : Nat) (m : Int) : Nat :=
  uint64OfInt64 (wrap64 (wrap64 (m - int64OfUint64 epoch) * 2 ^ 22))

/-! ### Statement-side definitions -/

/-- Decimal representation of v defined through Mathlib digits, independent
of the FormatUint model: most significant digit first, and the single byte
48 for zero. -/
def decimalDigitsOf (v : Nat) : List Nat :=
  if v = 0 then [48] else ((Nat.digits 10 v).map (fun d => 48 + d)).reverse

/-- The success condition asserted by claim C1, following the words of the
specification: the input is the bytes of `null`, `0` or a double-quoted zero,
or a double-quoted string whose content is a decimal digit string in uint64
range, or, only when unquoted integers are allowed, a bare decimal digit
string in that range. -/
def claimC1Success (allow : Bool) (b : List Nat) : Bool :=
  b == JSON_NULL || b == JSON_ZERO || b == JSON_ZERO_QUOTED ||
    (match b with
      | 34 :: rest => rest.getLast? == some 34 && isDigitStringInRange rest.dropLast
      | _ => false) ||
    (allow && isDigitStringInRange b)

/-! ### Helper lemmas: decimal parsing -/

theorem digitsValFrom_cons (n c : Nat) (cs : List Nat) :
    digitsValFrom n (c :: cs) = digitsValFrom (n * 10 + (c - 48)) cs := rfl

theorem digitsValFrom_append (n c : Nat) (l : List Nat) :
    digitsValFrom n (l ++ [c]) = digitsValFrom n l * 10 + (c - 48) := by
  simp [digitsValFrom, List.foldl_append]

theorem le_digitsValFrom (n : Nat) (l : List Nat) : n ≤ digitsValFrom n l := by
  induction l generalizing n with
  | nil => exact Nat.le_refl n
  | cons c cs ih =>
    rw [digitsValFrom_cons]
    exact Nat.le_trans (by omega) (ih (n * 10 + (c - 48)))

theorem maxUint64_eq : maxUint64 = 18446744073709551615 := by
  norm_num [maxUint64]

theorem cutoff10_eq : cutoff10 = 1844674407370955162 := by
  norm_num [cutoff10, maxUint64]

theorem parseUintLoop_ok_iff (l : List Nat) (n v : Nat) (hn : n ≤ maxUint64) :
    parseUintLoop l n = Except.ok v ↔
      (allDigits l = true ∧ digitsValFrom n l ≤ maxUint64 ∧ v = digitsValFrom n l) := by
  induction l generalizing n with
  | nil =>
    simp only [parseUintLoop, allDigits, List.all_nil, digitsValFrom, List.foldl_nil,
      Except.ok.injEq, true_and]
    constructor
    · intro h; exact ⟨hn, h.symm⟩
    · intro h; exact h.2.symm
  | cons c cs ih =>
    rw [digitsValFrom_cons]
    have hall : allDigits (c :: cs) = true ↔
        ((48 ≤ c ∧ c ≤ 57) ∧ allDigits cs = true) := by
      simp [allDigits, List.all_cons, Bool.and_eq_true, decide_eq_true_eq, and_assoc]
    by_cases hc : 48 ≤ c ∧ c ≤ 57
    · by_cases h1 : cutoff10 ≤ n
      · have hbig : maxUint64 < digitsValFrom (n * 10 + (c - 48)) cs := by
          have := le_digitsValFrom (n * 10 + (c - 48)) cs
          have hcut := cutoff10_eq
          have hmax := maxUint64_eq
          omega
        simp only [parseUintLoop, if_pos hc, if_pos h1]
        constructor
        · intro h; exact absurd h (by simp)
        · intro h; omega
      · by_cases h2 : maxUint64 < n * 10 + (c - 48)
        · have hbig : maxUint64 < digitsValFrom (n * 10 + (c - 48)) cs :=
            Nat.lt_of_lt_of_le h2 (le_digitsValFrom _ cs)
          simp only [parseUintLoop, if_pos hc, if_pos h1, if_neg h1, if_pos h2]
          constructor
          · intro h; exact absurd h (by simp)
          · intro h; omega
        · have hn1 : n * 10 + (c - 48) ≤ maxUint64 := by omega
          simp only [parseUintLoop, if_pos hc, if_neg h1, if_neg h2]
          rw [ih (n * 10 + (c - 48)) hn1, hall]
          tauto
    · simp only [parseUintLoop, if_neg hc]
      rw [hall]
      constructor
      · intro h; exact absurd h (by simp)
      · intro h; tauto

theorem parseUint10_ok_iff (s : List Nat) (v : Nat) :
    parseUint10 s = Except.ok v ↔
      (s ≠ [] ∧ allDigits s = true ∧ digitsVal s ≤ maxUint64 ∧ v = digitsVal s) := by
  by_cases hs : s = []
  · subst hs
    simp [parseUint10]
  · rw [parseUint10, if_neg hs]
    have h := parseUintLoop_ok_iff s 0 v (Nat.zero_le _)
    cases hres : parseUintLoop s 0 with
    | ok w =>
      have hw := (parseUintLoop_ok_iff s 0 w (Nat.zero_le _)).mp hres
      simp only [Except.ok.injEq]
      constructor
      · intro hvw
        subst hvw
        exact ⟨hs, hw.1, hw.2.1, hw.2.2⟩
      · intro hr
        have h1 := hr.2.2.2
        have h2 := hw.2.2
        have h3 : digitsVal s = digitsValFrom 0 s := rfl
        omega
    | error k =>
      simp only [reduceCtorEq, false_iff, not_and]
      intro _ hd hval hv
      have : parseUintLoop s 0 = Except.ok v := by
        rw [h]; exact ⟨hd, by rw [digitsVal] at hval; omega, hv⟩
      rw [hres] at this
      exact absurd this (by simp)

theorem parseUint10_err (s : List Nat) (e : NumErr) (h : parseUint10 s = Except.error e) :
    e.num = s := by
  rw [parseUint10] at h
  by_cases hs : s = []
  · rw [if_pos hs] at h
    cases h
    rfl
  · rw [if_neg hs] at h
    cases hres : parseUintLoop s 0 with
    | ok w => rw [hres] at h; exact absurd h (by simp)
    | error k => rw [hres] at h; cases h; rfl

theorem isDigitStringInRange_iff (s : List Nat) :
    isDigitStringInRange s = true ↔
      (s ≠ [] ∧ allDigits s = true ∧ digitsVal s ≤ maxUint64) := by
  simp [isDigitStringInRange, Bool.and_eq_true, decide_eq_true_eq, and_assoc,
    List.isEmpty_iff]

theorem parseString_char (s : List Nat) :
    ((∃ v, ParseString s = Except.ok v) ↔ isDigitStringInRange s = true)
    ∧ (∀ v, ParseString s = Except.ok v → v = digitsVal s)
    ∧ (∀ e, ParseString s = Except.error e →
        ∃ k, e = SnowErr.stringParse ⟨s, k⟩) := by
  refine ⟨⟨fun hv => ?_, fun hd => ?_⟩, fun v hv => ?_, fun e he => ?_⟩
  · obtain ⟨v, hv⟩ := hv
    rw [ParseString] at hv
    cases hres : parseUint10 s with
    | ok w =>
      have := (parseUint10_ok_iff s w).mp hres
      rw [isDigitStringInRange_iff]
      exact ⟨this.1, this.2.1, this.2.2.1⟩
    | error k => rw [hres] at hv; exact absurd hv (by simp)
  · rw [isDigitStringInRange_iff] at hd
    refine ⟨digitsVal s, ?_⟩
    rw [ParseString, (parseUint10_ok_iff s (digitsVal s)).mpr ⟨hd.1, hd.2.1, hd.2.2, rfl⟩]
  · rw [ParseString] at hv
    cases hres : parseUint10 s with
    | ok w =>
      rw [hres] at hv
      injection hv with hwv
      subst hwv
      exact ((parseUint10_ok_iff s w).mp hres).2.2.2
    | error k => rw [hres] at hv; exact absurd hv (by simp)
  · rw [ParseString] at he
    cases hres : parseUint10 s with
    | ok w => rw [hres] at he; exact absurd he (by simp)
    | error k =>
      rw [hres] at he
      cases he
      have := parseUint10_err s k hres
      exact ⟨k.kind, by cases k; simp_all⟩

/-! ### Helper lemmas: decimal formatting and quoting -/

theorem formatLoop_val (fuel : Nat) : ∀ v : Nat, v < fuel →
    digitsVal (formatLoop fuel v) = v := by
  induction fuel with
  | zero => intro v hv; omega
  | succ fuel ih =>
    intro v hv
    by_cases h10 : v < 10
    · rw [formatLoop, if_pos h10]
      simp [digitsVal, digitsValFrom]
    · rw [formatLoop, if_neg h10]
      have hrec : v / 10 < fuel := by omega
      rw [digitsVal, digitsValFrom_append]
      have := ih (v / 10) hrec
      rw [digitsVal] at this
      omega

theorem formatLoop_digits (fuel : Nat) : ∀ v : Nat,
    allDigits (formatLoop fuel v) = true := by
  induction fuel with
  | zero => intro v; rfl
  | succ fuel ih =>
    intro v
    by_cases h10 : v < 10
    · rw [formatLoop, if_pos h10]
      simp [allDigits]
      omega
    · rw [formatLoop, if_neg h10]
      have h1 := ih (v / 10)
      simp only [allDigits, List.all_append, Bool.and_eq_true] at h1 ⊢
      refine ⟨h1, ?_⟩
      simp
      omega

theorem formatLoop_ne_nil (fuel v : Nat) (hv : v < fuel) :
    formatLoop fuel v ≠ [] := by
  cases fuel with
  | zero => omega
  | succ fuel =>
    rw [formatLoop]
    by_cases h10 : v < 10
    · rw [if_pos h10]; simp
    · rw [if_neg h10]; simp

theorem decimalDigitsOf_step (v : Nat) (hv : 10 ≤ v) :
    decimalDigitsOf v = decimalDigitsOf (v / 10) ++ [48 + v % 10] := by
  rw [decimalDigitsOf, if_neg (by omega), Nat.digits_def' (by norm_num : 1 < 10) (by omega)]
  rw [decimalDigitsOf, if_neg (by omega)]
  simp

theorem formatLoop_eq_decimal (fuel : Nat) : ∀ v : Nat, v < fuel →
    formatLoop fuel v = decimalDigitsOf v := by
  induction fuel with
  | zero => intro v hv; omega
  | succ fuel ih =>
    intro v hv
    by_cases h10 : v < 10
    · rw [formatLoop, if_pos h10]
      by_cases h0 : v = 0
      · subst h0; rfl
      · rw [decimalDigitsOf, if_neg h0,
          Nat.digits_def' (by norm_num : 1 < 10) (by omega)]
        have hm : v % 10 = v := Nat.mod_eq_of_lt h10
        have hd : v / 10 = 0 := Nat.div_eq_of_lt h10
        rw [hm, hd]
        simp
    · rw [formatLoop, if_neg h10, decimalDigitsOf_step v (by omega),
        ih (v / 10) (by omega)]

theorem FormatUint_eq_decimal (v : Nat) : FormatUint v = decimalDigitsOf v :=
  formatLoop_eq_decimal (v + 1) v (Nat.lt_succ_self v)

theorem quoteByte_digit (c : Nat) (h1 : 48 ≤ c) (h2 : c ≤ 57) : quoteByte c = [c] := by
  rw [quoteByte, if_neg (by omega), if_pos (by omega)]

theorem quoteGo_digits (s : List Nat) (h : allDigits s = true) :
    quoteGo s = [34] ++ s ++ [34] := by
  rw [quoteGo]
  congr 1
  congr 1
  induction s with
  | nil => rfl
  | cons c cs ih =>
    simp only [allDigits, List.all_cons, Bool.and_eq_true, decide_eq_true_eq] at h
    rw [List.map_cons, List.flatten_cons, quoteByte_digit c h.1.1 h.1.2]
    rw [ih (by simp [allDigits, h.2])]
    rfl

/-! ### Claim theorems: string codec -/

/-- C2: ParseString succeeds, returning the denoted integer as the raw value,
exactly when the input is a nonempty sequence of ASCII digits denoting a
value at most 2^64 - 1; every other input fails with a StringParseError
recording the offending input and the underlying numeric-parse failure. -/
theorem parseString_spec (s : List Nat) :
    ((∃ v, ParseString s = Except.ok v) ↔
      (s ≠ [] ∧ allDigits s = true ∧ digitsVal s ≤ maxUint64))
    ∧ (∀ v, ParseString s = Except.ok v → v = digitsVal s)
    ∧ (∀ e, ParseString s = Except.error e →
        ∃ k, e = SnowErr.stringParse ⟨s, k⟩) := by
  have h := parseString_char s
  exact ⟨(h.1).trans (isDigitStringInRange_iff s), h.2.1, h.2.2⟩

theorem parseString_spec_witness :
    [49, 48, 48, 48] ≠ ([] : List Nat) ∧ allDigits [49, 48, 48, 48] = true ∧
      digitsVal [49, 48, 48, 48] ≤ maxUint64 :=
  (parseString_spec [49, 48, 48, 48]).1.mp ⟨1000, rfl⟩

/-- C8: round-trip — for every value of a Go uint64, parsing the decimal
string produced by Snowflake.String with ParseString succeeds and returns
exactly that value. -/
theorem decimal_roundtrip (v : Nat) (hv : v ≤ maxUint64) :
    ParseString (Snowflake.String v) = Except.ok v := by
  have hdig : allDigits (Snowflake.String v) = true := formatLoop_digits (v + 1) v
  have hval : digitsVal (Snowflake.String v) = v :=
    formatLoop_val (v + 1) v (Nat.lt_succ_self v)
  have hne : Snowflake.String v ≠ [] := formatLoop_ne_nil (v + 1) v (Nat.lt_succ_self v)
  rw [ParseString, (parseUint10_ok_iff (Snowflake.String v) v).mpr
    ⟨hne, hdig, by omega, hval.symm⟩]

theorem decimal_roundtrip_witness :
    ParseString (Snowflake.String 175928847299117209) = Except.ok 175928847299117209 :=
  decimal_roundtrip 175928847299117209 (by decide)

/-- C5: MarshalJSON always returns a nil error together with exactly the
unsigned base-10 decimal representation of the value wrapped in one pair of
double quotes (byte 34), for every value; the output never depends on the
AllowUnquoted flag, which MarshalJSON does not read. -/
theorem marshalJSON_spec (v : Nat) :
    Snowflake.MarshalJSON v = ([34] ++ decimalDigitsOf v ++ [34], none) := by
  rw [Snowflake.MarshalJSON, quoteGo_digits (FormatUint v) (formatLoop_digits (v + 1) v),
    FormatUint_eq_decimal]

/-- C3: UnmarshalJSON overwrites the stored value with the ParseJSON result
when parsing succeeds; when parsing fails it returns that same error and
leaves the stored value exactly unchanged. -/
theorem unmarshalJSON_atomic (allow : Bool) (cur : Nat) (b : List Nat) :
    (∃ v, ParseJSON allow b = Except.ok v ∧
      Snowflake.UnmarshalJSON allow cur b = (v, none)) ∨
    (∃ e, ParseJSON allow b = Except.error e ∧
      Snowflake.UnmarshalJSON allow cur b = (cur, some e)) := by
  cases h : ParseJSON allow b with
  | ok v => exact Or.inl ⟨v, rfl, by rw [Snowflake.UnmarshalJSON, h]⟩
  | error e => exact Or.inr ⟨e, rfl, by rw [Snowflake.UnmarshalJSON, h]⟩

/-- C4: for both values of the AllowUnquoted flag, ParseJSON of exactly the
bytes of `null`, of `0`, or of a double-quoted zero returns value 0 with no
error; the zero-literal check precedes unquoting and digit parsing and never
consults the flag. -/
theorem parseJSON_zero_literals (allow : Bool) :
    ParseJSON allow JSON_NULL = Except.ok 0 ∧
    ParseJSON allow JSON_ZERO = Except.ok 0 ∧
    ParseJSON allow JSON_ZERO_QUOTED = Except.ok 0 := by
  cases allow <;> exact ⟨rfl, rfl, rfl⟩

/-! ### Claim theorems: field accessors and bits -/

/-- C6: for every stored value and every Epoch, the field accessors compute
Sequence = v &&& 0xFFF (the uint16 conversion never truncates),
ProcessID = (v &&& 0x1F000) >>> 12 and WorkerID = (v &&& 0x3E0000) >>> 17
(the uint8 conversions never truncate), and UnixMilli = (v >>> 22) + Epoch
with wrapping unsigned 64-bit addition. -/
theorem field_accessors_spec (epoch v : Nat) :
    Snowflake.Sequence v = v &&& 0xFFF ∧
    Snowflake.ProcessID v = (v &&& 0x1F000) >>> 12 ∧
    Snowflake.WorkerID v = (v &&& 0x3E0000) >>> 17 ∧
    Snowflake.UnixMilli epoch v = (v >>> 22 + epoch) % 2 ^ 64 := by
  refine ⟨?_, ?_, ?_, rfl⟩
  · rw [Snowflake.Sequence]
    exact Nat.mod_eq_of_lt (Nat.lt_of_le_of_lt Nat.and_le_right (by norm_num))
  · rw [Snowflake.ProcessID]
    apply Nat.mod_eq_of_lt
    rw [Nat.shiftRight_eq_div_pow]
    have h2 : (v &&& 0x1F000) / 2 ^ 12 ≤ 0x1F000 / 2 ^ 12 :=
      Nat.div_le_div_right Nat.and_le_right
    norm_num at h2
    omega
  · rw [Snowflake.WorkerID]
    apply Nat.mod_eq_of_lt
    rw [Nat.shiftRight_eq_div_pow]
    have h2 : (v &&& 0x3E0000) / 2 ^ 17 ≤ 0x3E0000 / 2 ^ 17 :=
      Nat.div_le_div_right Nat.and_le_right
    norm_num at h2
    omega

/-- C7: for every value and every uint8 index i, Bit(v, i) equals bit i of v
(that is, (v >>> i) &&& 1 = 1) when i < 64, and is false for every index
from 64 to 255 — out-of-range indices yield false rather than an error. -/
theorem bit_spec (v i : Nat) :
    (i < 64 → Snowflake.Bit v i = decide ((v >>> i) &&& 1 = 1)) ∧
    (64 ≤ i → i ≤ 255 → Snowflake.Bit v i = false) := by
  constructor
  · intro hi
    rw [Snowflake.Bit]
    have h1 : decide (i < 64) = true := by simp [hi]
    have hp : (1 <<< i) % 2 ^ 64 = 2 ^ i := by
      rw [Nat.one_shiftLeft]
      exact Nat.mod_eq_of_lt (Nat.pow_lt_pow_right (by norm_num) hi)
    rw [h1, Bool.true_and, hp, Nat.and_one_is_mod, Nat.shiftRight_eq_div_pow]
    have hand := Nat.and_two_pow v i
    have htb : v.testBit i = decide (v / 2 ^ i % 2 = 1) := Nat.testBit_to_div_mod
    by_cases ht : v.testBit i = true
    · have h2 : v &&& 2 ^ i = 2 ^ i := by rw [hand, ht]; simp
      have h3 : v / 2 ^ i % 2 = 1 := of_decide_eq_true (htb.symm.trans ht)
      rw [h2, h3]
      simp
    · have ht2 : v.testBit i = false := Bool.not_eq_true _ |>.mp ht
      have h2 : v &&& 2 ^ i = 0 := by rw [hand, ht2]; simp
      have h3 : ¬(v / 2 ^ i % 2 = 1) := of_decide_eq_false (htb.symm.trans ht2)
      rw [h2]
      simp [h3]
  · intro hi _
    rw [Snowflake.Bit]
    have h1 : decide (i < 64) = false := by simp; omega
    rw [h1, Bool.false_and]

theorem bit_spec_witness :
    Snowflake.Bit 175928847299117209 0 = decide ((175928847299117209 >>> 0) &&& 1 = 1) ∧
    Snowflake.Bit 175928847299117209 64 = false :=
  ⟨(bit_spec 175928847299117209 0).1 (by decide),
    (bit_spec 175928847299117209 64).2 (by decide) (by decide)⟩

/-! ### Claim theorems: time conversion -/

theorem parseTime_eq (epoch : Nat) (m : Int) :
    ParseTime epoch m = (((m - (epoch : Int)) * 2 ^ 22) % 2 ^ 64).toNat := by
  rw [ParseTime, uint64OfInt64, wrap64, wrap64, int64OfUint64]
  split <;> omega

/-- C9: for every time (represented by its Unix millisecond count m, an
int64) and every Epoch, ParseTime equals m minus Epoch computed in signed
64-bit arithmetic — wrapping, not an error, when the time predates the
epoch — shifted left by 22 bits and reinterpreted as an unsigned 64-bit
value; in particular the low 22 bits (worker ID, process ID and sequence)
of the result are always zero. -/
theorem parseTime_spec (epoch : Nat) (m : Int) :
    ParseTime epoch m = (((m - (epoch : Int)) * 2 ^ 22) % 2 ^ 64).toNat ∧
    ParseTime epoch m % 2 ^ 22 = 0 := by
  refine ⟨parseTime_eq epoch m, ?_⟩
  rw [parseTime_eq epoch m]
  omega

/-- C10: implicit round-trip between construction from a time and timestamp
extraction — whenever the Unix millisecond count m of the time satisfies
Epoch ≤ m < Epoch + 2^42 (and m is a valid int64 value), UnixMilli recovers
m exactly from the snowflake built by ParseTime. -/
theorem time_roundtrip (epoch : Nat) (m : Int) (he : epoch < 2 ^ 64)
    (hm : m < 2 ^ 63) (h1 : (epoch : Int) ≤ m) (h2 : m < (epoch : Int) + 2 ^ 42) :
    Snowflake.UnixMilli epoch (ParseTime epoch m) = m.toNat := by
  rw [Snowflake.UnixMilli, parseTime_eq epoch m, Nat.shiftRight_eq_div_pow]
  omega

theorem time_roundtrip_witness :
    Snowflake.UnixMilli 1420070400000 (ParseTime 1420070400000 1420070400123) =
      (1420070400123 : Int).toNat :=
  time_roundtrip 1420070400000 1420070400123 (by decide) (by decide)
    (by decide) (by decide)

/-! ### Claim theorems: JSON parsing -/

/-- C1 (counterexample): the backquoted raw Go string literal of 10 — bytes
96, 49, 48, 96 — is accepted by strconv.Unquote, so ParseJSON succeeds on it
with value 10 even with AllowUnquoted false, while the success condition
asserted by the claim (null, the zero literals, a double-quoted digit
string, or — flag permitting — a bare digit string) rejects this input. -/
theorem parseJSON_claim_counterexample :
    ParseJSON false [96, 49, 48, 96] = Except.ok 10 ∧
    claimC1Success false [96, 49, 48, 96] = false :=
  ⟨rfl, rfl⟩

/-- C1 (amended): for every byte sequence and every value of the
AllowUnquoted flag, ParseJSON succeeds exactly when the input is the bytes
of `null`, of `0`, or of a double-quoted zero, or a Go string or rune
literal accepted by strconv.Unquote (double-quoted with escapes, backquoted,
or single-quoted) whose unquoted content is a decimal digit string denoting
a value at most 2^64 - 1, or — only when AllowUnquoted is true — a bare
decimal digit string in that range; when it fails, the error is an
UnquotedIntegerError exactly when the quote-stripping step failed while
AllowUnquoted is false, and a StringParseError in every other failing
case. -/
theorem parseJSON_spec (allow : Bool) (b : List Nat) :
    ((∃ v, ParseJSON allow b = Except.ok v) ↔
      (b = JSON_NULL ∨ b = JSON_ZERO ∨ b = JSON_ZERO_QUOTED ∨
        (∃ s, unquoteGo b = some s ∧ isDigitStringInRange s = true) ∨
        (unquoteGo b = none ∧ allow = true ∧ isDigitStringInRange b = true)))
    ∧ (∀ e, ParseJSON allow b = Except.error e →
        (e = SnowErr.unquotedInteger ↔ (unquoteGo b = none ∧ allow = false))) := by
  by_cases hb : b = JSON_NULL ∨ b = JSON_ZERO ∨ b = JSON_ZERO_QUOTED
  · constructor
    · constructor
      · intro _
        tauto
      · intro _
        refine ⟨0, ?_⟩
        unfold ParseJSON
        rw [if_pos hb]
    · intro e he
      unfold ParseJSON at he
      rw [if_pos hb] at he
      exact absurd he (by simp)
  · have hb1 : b ≠ JSON_NULL := fun h => hb (Or.inl h)
    have hb2 : b ≠ JSON_ZERO := fun h => hb (Or.inr (Or.inl h))
    have hb3 : b ≠ JSON_ZERO_QUOTED := fun h => hb (Or.inr (Or.inr h))
    cases hu : unquoteGo b with
    | none =>
      cases allow with
      | false =>
        have hpj : ParseJSON false b = Except.error SnowErr.unquotedInteger := by
          unfold ParseJSON
          rw [if_neg hb, hu]
          rfl
        constructor
        · constructor
          · rintro ⟨v, hv⟩
            rw [hpj] at hv
            exact absurd hv (by simp)
          · rintro (h | h | h | ⟨s, hs, _⟩ | ⟨_, ha, _⟩)
            · exact absurd h hb1
            · exact absurd h hb2
            · exact absurd h hb3
            · exact absurd hs (by simp)
            · exact absurd ha (by simp)
        · intro e he
          rw [hpj] at he
          injection he with h
          subst h
          exact ⟨fun _ => ⟨rfl, rfl⟩, fun _ => rfl⟩
      | true =>
        have hpj : ParseJSON true b = ParseString b := by
          unfold ParseJSON
          rw [if_neg hb, hu]
          rfl
        have hc := parseString_char b
        constructor
        · constructor
          · intro hv
            rw [hpj] at hv
            exact Or.inr (Or.inr (Or.inr (Or.inr ⟨rfl, rfl, hc.1.mp hv⟩)))
          · rintro (h | h | h | ⟨s, hs, _⟩ | ⟨_, _, hr⟩)
            · exact absurd h hb1
            · exact absurd h hb2
            · exact absurd h hb3
            · exact absurd hs (by simp)
            · rw [hpj]; exact hc.1.mpr hr
        · intro e he
          rw [hpj] at he
          obtain ⟨k, hk⟩ := hc.2.2 e he
          subst hk
          exact ⟨fun h => absurd h (by simp), fun h => absurd h.2 (by simp)⟩
    | some s =>
      have hpj : ParseJSON allow b = ParseString s := by
        unfold ParseJSON
        rw [if_neg hb, hu]
      have hc := parseString_char s
      constructor
      · constructor
        · intro hv
          rw [hpj] at hv
          exact Or.inr (Or.inr (Or.inr (Or.inl ⟨s, rfl, hc.1.mp hv⟩)))
        · rintro (h | h | h | ⟨t, ht, hr⟩ | ⟨hn, _, _⟩)
          · exact absurd h hb1
          · exact absurd h hb2
          · exact absurd h hb3
          · injection ht with ht2
            subst ht2
            rw [hpj]
            exact hc.1.mpr hr
          · exact absurd hn (by simp)
      · intro e he
        rw [hpj] at he
        obtain ⟨k, hk⟩ := hc.2.2 e he
        subst hk
        exact ⟨fun h => absurd h (by simp), fun h => absurd h.1 (by simp)⟩

theorem parseJSON_spec_witness :
    SnowErr.unquotedInteger = SnowErr.unquotedInteger ↔
      (unquoteGo [49, 48] = none ∧ false = false) :=
  (parseJSON_spec false [49, 48]).2 SnowErr.unquotedInteger rfl
